import Mathlib

/-!
# Verification of the pipeline driver (`main.py`)

A shallow embedding of the repository single source file, `src/main.py`:
a pipeline driver that reads a hierarchical configuration, selects a
subset of a fixed step registry, and invokes each selected step as an
external `mlflow.run` call, inside a scoped temporary directory.

The embedding models:

* configuration values (`CVal`) as nested string-keyed association lists,
  mirroring the OmegaConf `DictConfig` tree; a missing key aborts the
  run, as a Python `KeyError` would;
* the step registry `_steps` and the order of the six `if ... in
  active_steps` blocks (`stepOrder`);
* the comma split of the step-selection string (`splitComma`, the
  semantics of Python `str.split(",")`);
* the JSON serialization performed by `json.dump` on the flat
  hyperparameter block (`encodeObj`), together with a parser (`parse`)
  used to state the round-trip property.  The encoder models `json.dump`
  for keys and string values made of printable characters, escaping the
  quote and backslash characters;
* the observable behaviour of a run as a trace of events (`Event`):
  setting an environment variable, creating and removing the temporary
  directory, writing a file, and invoking an external step.  External
  step outcomes are modelled by an oracle `String → Bool` giving the
  success status of each named step; `mlflow.run` raises on failure and
  the driver catches nothing, so a failed step aborts the run while the
  `with tempfile.TemporaryDirectory()` block still removes the
  directory on the way out.
-/

/-- Configuration values: the OmegaConf tree of `config.yaml`, and also the
JSON values written by `json.dump` (strings, integers, booleans, nested
objects).  Floating point values are outside the model. -/
inductive CVal where
  | str (s : String)
  | int (n : Int)
  | bool (b : Bool)
  | obj (entries : List (String × CVal))

/-- A configuration is a top-level mapping. -/
abbrev Config := List (String × CVal)

/-- First binding of a key in an association list (dictionary lookup;
keys of a Python dict are unique, so first match is the match). -/
def lookupKV : List (String × CVal) → String → Option CVal
  | [], _ => none
  | (k, v) :: rest, key => if k = key then some v else lookupKV rest key

/-- Indexing `config[k1][k2]...[kn]`: each indexing step raises (aborts)
when the key is absent or the intermediate value is not a mapping. -/
def lookupPath : Config → List String → Option CVal
  | _, [] => none
  | l, [k] => lookupKV l k
  | l, k :: rest =>
    match lookupKV l k with
    | some (CVal.obj l2) => lookupPath l2 rest
    | _ => none

/-- Python `str.split(",")` on the character list: splits at every comma,
keeps empty tokens, performs no whitespace stripping. -/
def splitCommaAux (cur : List Char) : List Char → List (List Char)
  | [] => [cur]
  | c :: rest =>
    if c = ',' then cur :: splitCommaAux [] rest
    else splitCommaAux (cur ++ [c]) rest

/-- Python `steps_par.split(",")`. -/
def splitComma (s : String) : List String :=
  (splitCommaAux [] s.data).map String.mk

/-- The step registry from `main.py`: `test_regression_model` is commented
out, so the `"all"` sentinel never selects it. -/
def _steps : List String :=
  ["download", "basic_cleaning", "data_check", "data_split", "train_random_forest"]

/-- The order of the `if "..." in active_steps` blocks in `go`, which is the
order in which steps can ever be invoked. -/
def stepOrder : List String :=
  ["download", "basic_cleaning", "data_check", "data_split",
   "train_random_forest", "test_regression_model"]

/-- Line 33 of `main.py`:
`active_steps = steps_par.split(",") if steps_par != "all" else _steps`. -/
def activeOf (steps_par : String) : List String :=
  if steps_par = "all" then _steps else splitComma steps_par

/-- Model of `os.path.join` for the relative second components used by the driver. -/
def pathJoin (a b : String) : String := a ++ "/" ++ b

/-! ## JSON serialization (`json.dump`) and a parser for it -/

/-- Escape of quote and backslash inside a JSON string literal. -/
def escChars : List Char → List Char
  | [] => []
  | c :: cs =>
    if c = '"' ∨ c = '\\' then '\\' :: c :: escChars cs
    else c :: escChars cs

/-- Decimal digits of a natural number, most significant first. -/
def natChars (n : Nat) : List Char :=
  if n < 10 then [Nat.digitChar n]
  else natChars (n / 10) ++ [Nat.digitChar (n % 10)]
termination_by n
decreasing_by
  exact Nat.div_lt_self (by omega) (by omega)

/-- Decimal rendering of an integer, as Python `json.dump` prints it. -/
def intChars : Int → List Char
  | Int.ofNat n => natChars n
  | Int.negSucc m => '-' :: natChars (m + 1)

mutual

/-- Rendering of a JSON value, following the defaults of `json.dump`
(separators `", "` and `": "`). -/
def encodeValChars : CVal → List Char
  | CVal.str s => '"' :: escChars s.data ++ ['"']
  | CVal.int n => intChars n
  | CVal.bool true => ['t', 'r', 'u', 'e']
  | CVal.bool false => ['f', 'a', 'l', 's', 'e']
  | CVal.obj l => '{' :: encodeEntriesChars l ++ ['}']

/-- Rendering of the entries of a JSON object, comma-space separated. -/
def encodeEntriesChars : List (String × CVal) → List Char
  | [] => []
  | (k, v) :: rest =>
    ('"' :: escChars k.data ++ '"' :: ':' :: ' ' :: encodeValChars v) ++
      (match rest with
       | [] => []
       | _ :: _ => ',' :: ' ' :: encodeEntriesChars rest)

end

/-- The file content produced by
`json.dump(dict(config["modeling"]["random_forest"].items()), fp)`. -/
def encodeObj (l : List (String × CVal)) : String :=
  String.mk ('{' :: encodeEntriesChars l ++ ['}'])

/-- Read a JSON string literal after its opening quote; a backslash takes
the next character literally.  Returns the characters and the remainder
after the closing quote. -/
def parseStrAux : List Char → Option (List Char × List Char)
  | [] => none
  | c :: rest =>
    if c = '"' then some ([], rest)
    else if c = '\\' then
      match rest with
      | [] => none
      | c2 :: rest2 => (parseStrAux rest2).map (fun p => (c2 :: p.1, p.2))
    else (parseStrAux rest).map (fun p => (c :: p.1, p.2))

/-- Numeric value of a decimal digit character. -/
def digitVal (c : Char) : Nat := c.toNat - '0'.toNat

/-- Consume a maximal run of decimal digits, folding them onto `acc`. -/
def parseDigitsAux (acc : Nat) : List Char → Nat × List Char
  | [] => (acc, [])
  | c :: rest =>
    if c.isDigit then parseDigitsAux (acc * 10 + digitVal c) rest
    else (acc, c :: rest)

/-- Parse one JSON value, given a parser `pe` for the entries of a
nonempty object (which is where the recursion through nesting lives). -/
def parseValWith (pe : List Char → Option (List (String × CVal) × List Char)) :
    List Char → Option (CVal × List Char)
  | [] => none
  | c :: rest =>
    if c = '"' then
      (parseStrAux rest).map (fun p => (CVal.str (String.mk p.1), p.2))
    else if c = '{' then
      match rest with
      | [] => none
      | c2 :: rest2 =>
        if c2 = '}' then some (CVal.obj [], rest2)
        else (pe (c2 :: rest2)).map (fun p => (CVal.obj p.1, p.2))
    else if c = 't' then
      match rest with
      | 'r' :: 'u' :: 'e' :: r => some (CVal.bool true, r)
      | _ => none
    else if c = 'f' then
      match rest with
      | 'a' :: 'l' :: 's' :: 'e' :: r => some (CVal.bool false, r)
      | _ => none
    else if c = '-' then
      match rest with
      | [] => none
      | c2 :: rest2 =>
        if c2.isDigit then
          let p := parseDigitsAux (digitVal c2) rest2
          some (CVal.int (-(p.1 : Int)), p.2)
        else none
    else if c.isDigit then
      let p := parseDigitsAux (digitVal c) rest
      some (CVal.int (p.1 : Int), p.2)
    else none

/-- Parse the entries of a nonempty JSON object, consuming the closing
brace; `fuel` bounds the recursion (entry count and nesting depth). -/
def parseEntries : Nat → List Char → Option (List (String × CVal) × List Char)
  | 0, _ => none
  | fuel + 1, cs =>
    match cs with
    | [] => none
    | c :: rest =>
      if c = '"' then
        match parseStrAux rest with
        | none => none
        | some (k, r1) =>
          match r1 with
          | ':' :: ' ' :: r2 =>
            match parseValWith (fun cs2 => parseEntries fuel cs2) r2 with
            | none => none
            | some (v, r3) =>
              match r3 with
              | [] => none
              | c3 :: r4 =>
                if c3 = '}' then some ([(String.mk k, v)], r4)
                else if c3 = ',' then
                  match r4 with
                  | ' ' :: r5 =>
                    match parseEntries fuel r5 with
                    | none => none
                    | some (l, r6) => some ((String.mk k, v) :: l, r6)
                  | _ => none
                else none
          | _ => none
      else none

/-- Parse one JSON value with nesting fuel `fuel`. -/
def parseVal (fuel : Nat) : List Char → Option (CVal × List Char) :=
  parseValWith (fun cs => parseEntries fuel cs)

/-- Parse a complete JSON document: the whole input must be consumed. -/
def parse (s : String) : Option CVal :=
  match parseVal s.length s.data with
  | some (v, []) => some v
  | _ => none

/-- A value is scalar when it is not a nested object.  The spec describes
the serialized hyperparameter file as a flat key-value dump. -/
def scalarB : CVal → Bool
  | CVal.obj _ => false
  | _ => true

/-! ## The driver -/

/-- One external `mlflow.run` invocation: the step name it came from, the
project URI, the entry point, the optional version pin, and the resolved
parameter record. -/
structure Invocation where
  name : String
  uri : String
  entryPoint : String
  version : Option String
  parameters : List (String × CVal)

/-- Observable events of a run. -/
inductive Event where
  | setEnv (key : String) (value : CVal)
  | createTmp (dir : String)
  | writeFile (path content : String)
  | invoke (inv : Invocation)
  | removeTmp (dir : String)

/-- Ambient inputs of a run besides the configuration: the current working
directory (base of `os.path.abspath`) and the original working directory
returned by `hydra.utils.get_original_cwd()`. -/
structure Ctx where
  cwd : String
  origCwd : String
  cfg : Config

/-- Rendering of a configuration value inside an f-string
(`f"{config[...]}/get_data"`); only string values occur in practice. -/
def cvalToStr : CVal → String
  | CVal.str s => s
  | CVal.int n => String.mk (intChars n)
  | CVal.bool true => "True"
  | CVal.bool false => "False"
  | CVal.obj l => encodeObj l

/-- The project URI each step is run from: the three remote steps resolve
`main.components_repository` (aborting when absent), the three local steps
use `os.path.join(get_original_cwd(), "src", <name>)`. -/
def uriOf (ctx : Ctx) (s : String) : Option String :=
  match s with
  | "download" =>
    (lookupPath ctx.cfg ["main", "components_repository"]).map
      (fun r => cvalToStr r ++ "/get_data")
  | "basic_cleaning" => some (pathJoin (pathJoin ctx.origCwd "src") "basic_cleaning")
  | "data_check" => some (pathJoin (pathJoin ctx.origCwd "src") "data_check")
  | "data_split" =>
    (lookupPath ctx.cfg ["main", "components_repository"]).map
      (fun r => cvalToStr r ++ "/train_val_test_split")
  | "train_random_forest" => some (pathJoin (pathJoin ctx.origCwd "src") "train_random_forest")
  | "test_regression_model" =>
    (lookupPath ctx.cfg ["main", "components_repository"]).map
      (fun r => cvalToStr r ++ "/test_regression_model")
  | _ => none

/-- Only the `download` invocation passes an explicit `version="main"`. -/
def versionOf (s : String) : Option String :=
  if s = "download" then some "main" else none

/-- The absolute path of the serialized hyperparameter file:
`os.path.abspath("rf_config.json")` resolves against the process current
working directory. -/
def rfConfigPath (ctx : Ctx) : String := pathJoin ctx.cwd "rf_config.json"

/-- The parameter record of each step, resolved from the configuration
exactly as the `parameters={...}` dictionaries of `main.py`; any missing
key makes the whole resolution abort. -/
def paramsOf (ctx : Ctx) (s : String) : Option (List (String × CVal)) :=
  match s with
  | "download" => do
    let v1 ← lookupPath ctx.cfg ["etl", "sample"]
    let v2 ← lookupPath ctx.cfg ["m_params", "download", "artifact_name"]
    let v3 ← lookupPath ctx.cfg ["m_params", "download", "artifact_type"]
    let v4 ← lookupPath ctx.cfg ["m_params", "download", "artifact_description"]
    pure [("sample", v1), ("artifact_name", v2), ("artifact_type", v3),
          ("artifact_description", v4)]
  | "basic_cleaning" => do
    let v1 ← lookupPath ctx.cfg ["m_params", "basic_cleaning", "input_artifact"]
    let v2 ← lookupPath ctx.cfg ["m_params", "basic_cleaning", "output_artifact"]
    let v3 ← lookupPath ctx.cfg ["m_params", "basic_cleaning", "output_type"]
    let v4 ← lookupPath ctx.cfg ["m_params", "basic_cleaning", "output_description"]
    let v5 ← lookupPath ctx.cfg ["etl", "min_price"]
    let v6 ← lookupPath ctx.cfg ["etl", "max_price"]
    pure [("input_artifact", v1), ("output_artifact", v2), ("output_type", v3),
          ("output_description", v4), ("min_price", v5), ("max_price", v6)]
  | "data_check" => do
    let v1 ← lookupPath ctx.cfg ["m_params", "data_check", "csv"]
    let v2 ← lookupPath ctx.cfg ["m_params", "data_check", "ref"]
    let v3 ← lookupPath ctx.cfg ["data_check", "kl_threshold"]
    let v4 ← lookupPath ctx.cfg ["etl", "min_price"]
    let v5 ← lookupPath ctx.cfg ["etl", "max_price"]
    pure [("csv", v1), ("ref", v2), ("kl_threshold", v3), ("min_price", v4),
          ("max_price", v5)]
  | "data_split" => do
    let v1 ← lookupPath ctx.cfg ["m_params", "data_split", "input"]
    let v2 ← lookupPath ctx.cfg ["modeling", "test_size"]
    let v3 ← lookupPath ctx.cfg ["modeling", "random_seed"]
    let v4 ← lookupPath ctx.cfg ["modeling", "stratify_by"]
    pure [("input", v1), ("test_size", v2), ("random_seed", v3), ("stratify_by", v4)]
  | "train_random_forest" =>
    match lookupPath ctx.cfg ["modeling", "random_forest"] with
    | some (CVal.obj _) => do
      let v1 ← lookupPath ctx.cfg ["m_params", "train_random_forest", "trainval_artifact"]
      let v2 ← lookupPath ctx.cfg ["modeling", "val_size"]
      let v3 ← lookupPath ctx.cfg ["modeling", "random_seed"]
      let v4 ← lookupPath ctx.cfg ["modeling", "stratify_by"]
      let v5 ← lookupPath ctx.cfg ["modeling", "max_tfidf_features"]
      let v6 ← lookupPath ctx.cfg ["m_params", "train_random_forest", "output_artifact"]
      pure [("trainval_artifact", v1), ("val_size", v2), ("random_seed", v3),
            ("stratify_by", v4), ("rf_config", CVal.str (rfConfigPath ctx)),
            ("max_tfidf_features", v5), ("output_artifact", v6)]
    | _ => none
  | "test_regression_model" => do
    let v1 ← lookupPath ctx.cfg ["m_params", "test_regression_model", "mlflow_model"]
    let v2 ← lookupPath ctx.cfg ["m_params", "test_regression_model", "test_dataset"]
    pure [("mlflow_model", v1), ("test_dataset", v2)]
  | _ => none

/-- The `mlflow.run` call of a step, when its URI and parameters resolve. -/
def stepInv (ctx : Ctx) (s : String) : Option Invocation := do
  let u ← uriOf ctx s
  let ps ← paramsOf ctx s
  pure (Invocation.mk s u "main" (versionOf s) ps)

/-- The file writes a step performs before its invocation: only
`train_random_forest` writes, dumping `modeling.random_forest` to
`rf_config.json`; the write happens once the sub-object is found to be a
mapping, even if a later parameter lookup then aborts the step. -/
def stepWrites (ctx : Ctx) (s : String) : List Event :=
  match s, lookupPath ctx.cfg ["modeling", "random_forest"] with
  | "train_random_forest", some (CVal.obj rf) =>
    [Event.writeFile (rfConfigPath ctx) (encodeObj rf)]
  | _, _ => []

/-- The sequence of `if <name> in active_steps:` blocks.  Each selected
step first performs its writes and resolves its invocation: a missing
configuration key aborts the run there; otherwise the step is invoked and
the oracle decides whether the external run succeeds, a failure aborting
the remaining pipeline. -/
def runSteps (ctx : Ctx) (oracle : String → Bool) (active : List String) :
    List String → List Event × Bool
  | [] => ([], true)
  | s :: rest =>
    if s ∈ active then
      match stepInv ctx s with
      | none => (stepWrites ctx s, false)
      | some inv =>
        if oracle s then
          (stepWrites ctx s ++ Event.invoke inv ::
            (runSteps ctx oracle active rest).1,
           (runSteps ctx oracle active rest).2)
        else (stepWrites ctx s ++ [Event.invoke inv], false)
    else runSteps ctx oracle active rest

/-- The driver `go` of `main.py`, as the trace of events of a run together
with its success status.  The two `os.environ` assignments happen first,
each aborting if its key is absent; the step-selection value must be a
string (it is split); the temporary directory is created on entering the
`with` block and removed on leaving it, on the success and on the failure
path alike. -/
def go (cwd origCwd tmpDir : String) (cfg : Config) (oracle : String → Bool) :
    List Event × Bool :=
  match lookupPath cfg ["main", "project_name"] with
  | none => ([], false)
  | some pn =>
    match lookupPath cfg ["main", "experiment_name"] with
    | none => ([Event.setEnv "WANDB_PROJECT" pn], false)
    | some en =>
      match lookupPath cfg ["main", "steps"] with
      | some (CVal.str steps_par) =>
        ([Event.setEnv "WANDB_PROJECT" pn, Event.setEnv "WANDB_RUN_GROUP" en,
          Event.createTmp tmpDir] ++
          (runSteps (Ctx.mk cwd origCwd cfg) oracle (activeOf steps_par) stepOrder).1 ++
          [Event.removeTmp tmpDir],
         (runSteps (Ctx.mk cwd origCwd cfg) oracle (activeOf steps_par) stepOrder).2)
      | _ =>
        ([Event.setEnv "WANDB_PROJECT" pn, Event.setEnv "WANDB_RUN_GROUP" en], false)

/-- The step names of the invocation events of a trace, in order. -/
def invokedNames (t : List Event) : List String :=
  t.filterMap (fun e => match e with | Event.invoke i => some i.name | _ => none)

/-- The paths of the file-write events of a trace, in order. -/
def writePaths (t : List Event) : List String :=
  t.filterMap (fun e => match e with | Event.writeFile p _ => some p | _ => none)

/-- A complete concrete configuration with step selection `sel`, mirroring
the keys `main.py` resolves; used to instantiate the theorems. -/
def cfgWith (sel : String) : Config :=
  [("main", CVal.obj
      [("project_name", CVal.str "nyc_airbnb"),
       ("experiment_name", CVal.str "development"),
       ("steps", CVal.str sel),
       ("components_repository", CVal.str "https://github.com/components")]),
   ("etl", CVal.obj
      [("sample", CVal.str "sample1.csv"),
       ("min_price", CVal.int 10),
       ("max_price", CVal.int 350)]),
   ("data_check", CVal.obj [("kl_threshold", CVal.int 1)]),
   ("modeling", CVal.obj
      [("test_size", CVal.str "0.2"),
       ("random_seed", CVal.int 42),
       ("stratify_by", CVal.str "neighbourhood_group"),
       ("val_size", CVal.str "0.2"),
       ("max_tfidf_features", CVal.int 5),
       ("random_forest", CVal.obj
          [("n_estimators", CVal.int 100), ("max_depth", CVal.int 10)])]),
   ("m_params", CVal.obj
      [("download", CVal.obj
          [("artifact_name", CVal.str "sample.csv"),
           ("artifact_type", CVal.str "raw_data"),
           ("artifact_description", CVal.str "Raw file as downloaded")]),
       ("basic_cleaning", CVal.obj
          [("input_artifact", CVal.str "sample.csv:latest"),
           ("output_artifact", CVal.str "clean_sample.csv"),
           ("output_type", CVal.str "clean_sample"),
           ("output_description", CVal.str "Data with outliers removed")]),
       ("data_check", CVal.obj
          [("csv", CVal.str "clean_sample.csv:latest"),
           ("ref", CVal.str "clean_sample.csv:reference")]),
       ("data_split", CVal.obj [("input", CVal.str "clean_sample.csv:latest")]),
       ("train_random_forest", CVal.obj
          [("trainval_artifact", CVal.str "trainval_data.csv:latest"),
           ("output_artifact", CVal.str "random_forest_export")]),
       ("test_regression_model", CVal.obj
          [("mlflow_model", CVal.str "random_forest_export:prod"),
           ("test_dataset", CVal.str "test_data.csv:latest")])])]

/-- The oracle under which every external step succeeds. -/
def allOk : String → Bool := fun _ => true

/-! ## Round trip of the JSON serialization -/

/-- The head of a character list is not a decimal digit, so a digit run
ends there. -/
def headDigitFree : List Char → Bool
  | [] => true
  | c :: _ => !c.isDigit

theorem digitChar_facts :
    ∀ d, d < 10 → (Nat.digitChar d).isDigit = true ∧ digitVal (Nat.digitChar d) = d := by
  decide

theorem natChars_ne_nil (n : Nat) : natChars n ≠ [] := by
  induction n using natChars.induct with
  | case1 n h => rw [natChars]; simp [h]
  | case2 n h ih => rw [natChars]; simp [h]

theorem natChars_digits (n : Nat) : ∀ c ∈ natChars n, c.isDigit = true := by
  induction n using natChars.induct with
  | case1 n h =>
    rw [natChars]
    intro c hc
    simp [h] at hc
    subst hc
    exact (digitChar_facts n h).1
  | case2 n h ih =>
    rw [natChars]
    intro c hc
    simp [h] at hc
    rcases hc with hc | hc
    · exact ih c hc
    · subst hc
      exact (digitChar_facts (n % 10) (Nat.mod_lt _ (by omega))).1

theorem parseDigitsAux_spec (ds rest : List Char)
    (hds : ∀ c ∈ ds, c.isDigit = true) (hrest : headDigitFree rest = true)
    (acc : Nat) :
    parseDigitsAux acc (ds ++ rest) =
      (ds.foldl (fun a c => a * 10 + digitVal c) acc, rest) := by
  induction ds generalizing acc with
  | nil =>
    cases rest with
    | nil => simp [parseDigitsAux]
    | cons c r =>
      simp [headDigitFree] at hrest
      simp [parseDigitsAux, hrest]
  | cons c cs ih =>
    have hc : c.isDigit = true := hds c (by simp)
    simp [parseDigitsAux, hc]
    exact ih (fun c2 h2 => hds c2 (by simp [h2])) _

theorem natChars_foldl (n : Nat) : ∀ acc : Nat,
    (natChars n).foldl (fun a c => a * 10 + digitVal c) acc =
      acc * 10 ^ (natChars n).length + n := by
  induction n using natChars.induct with
  | case1 n h =>
    intro acc
    rw [natChars]
    simp [h, (digitChar_facts n h).2]
  | case2 n h ih =>
    intro acc
    rw [natChars]
    simp [h, List.foldl_append]
    rw [ih, (digitChar_facts (n % 10) (Nat.mod_lt _ (by omega))).2, pow_succ,
      ← mul_assoc]
    omega

theorem parseDigits_natChars (n : Nat) (rest : List Char)
    (hrest : headDigitFree rest = true) :
    ∃ c ds, natChars n = c :: ds ∧ c.isDigit = true ∧
      parseDigitsAux (digitVal c) (ds ++ rest) = (n, rest) := by
  rcases h : natChars n with _ | ⟨c, ds⟩
  · exact absurd h (natChars_ne_nil n)
  · refine ⟨c, ds, rfl, natChars_digits n c (by rw [h]; simp), ?_⟩
    have hds : ∀ x ∈ ds, x.isDigit = true :=
      fun x hx => natChars_digits n x (by rw [h]; simp [hx])
    rw [parseDigitsAux_spec ds rest hds hrest]
    have h2 := natChars_foldl n 0
    rw [h] at h2
    simp at h2
    simp [h2]

theorem parseStrAux_escape (s rest : List Char) :
    parseStrAux (escChars s ++ '"' :: rest) = some (s, rest) := by
  induction s with
  | nil =>
    show parseStrAux ('"' :: rest) = some ([], rest)
    rw [parseStrAux.eq_def]
    simp
  | cons c cs ih =>
    by_cases hc : c = '"' ∨ c = '\\'
    · have he : escChars (c :: cs) = '\\' :: c :: escChars cs := by
        simp [escChars, hc]
      rw [he, List.cons_append, List.cons_append, parseStrAux.eq_def]
      simp [ih]
    · push_neg at hc
      have he : escChars (c :: cs) = c :: escChars cs := by
        simp [escChars, hc.1, hc.2]
      rw [he, List.cons_append, parseStrAux.eq_def]
      simp [hc.1, hc.2, ih]

theorem isDigit_ne (c : Char) (h : c.isDigit = true) :
    c ≠ '"' ∧ c ≠ '{' ∧ c ≠ 't' ∧ c ≠ 'f' ∧ c ≠ '-' := by
  refine ⟨?_, ?_, ?_, ?_, ?_⟩ <;> (intro he; subst he; exact absurd h (by decide))

theorem parseValWith_scalar (pe : List Char → Option (List (String × CVal) × List Char))
    (v : CVal) (hv : scalarB v = true) (rest : List Char)
    (hrest : headDigitFree rest = true) :
    parseValWith pe (encodeValChars v ++ rest) = some (v, rest) := by
  cases v with
  | str s =>
    show parseValWith pe (('"' :: escChars s.data ++ ['"']) ++ rest) = _
    have he : ('"' :: escChars s.data ++ ['"']) ++ rest =
        '"' :: (escChars s.data ++ '"' :: rest) := by simp
    rw [he, parseValWith.eq_def]
    simp [parseStrAux_escape]
  | int n =>
    cases n with
    | ofNat m =>
      show parseValWith pe (natChars m ++ rest) = _
      obtain ⟨c, ds, hnc, hcd, hp⟩ := parseDigits_natChars m rest hrest
      rw [hnc, List.cons_append, parseValWith.eq_def]
      obtain ⟨h1, h2, h3, h4, h5⟩ := isDigit_ne c hcd
      simp [h1, h2, h3, h4, h5, hcd, hp]
    | negSucc m =>
      show parseValWith pe (('-' :: natChars (m + 1)) ++ rest) = _
      obtain ⟨c, ds, hnc, hcd, hp⟩ := parseDigits_natChars (m + 1) rest hrest
      rw [List.cons_append, hnc, List.cons_append, parseValWith.eq_def]
      simp [hcd, hp, Int.negSucc_eq]
  | bool b =>
    cases b with
    | false =>
      show parseValWith pe (('f' :: ['a', 'l', 's', 'e']) ++ rest) = _
      rw [List.cons_append, parseValWith.eq_def]
      simp
    | true =>
      show parseValWith pe (('t' :: ['r', 'u', 'e']) ++ rest) = _
      rw [List.cons_append, parseValWith.eq_def]
      simp
  | obj l => simp [scalarB] at hv

theorem parseEntries_encode (l : List (String × CVal)) :
    ∀ (fuel : Nat) (rest : List Char), l ≠ [] →
      (∀ p ∈ l, scalarB p.2 = true) → l.length ≤ fuel →
      parseEntries fuel (encodeEntriesChars l ++ '}' :: rest) = some (l, rest) := by
  induction l with
  | nil => intro fuel rest h _ _; exact absurd rfl h
  | cons kv tl ih =>
    intro fuel rest _ hflat hlen
    obtain ⟨k, v⟩ := kv
    cases fuel with
    | zero => simp at hlen
    | succ f =>
      have hv : scalarB v = true := hflat (k, v) (by simp)
      cases tl with
      | nil =>
        have hinput : encodeEntriesChars [(k, v)] ++ '}' :: rest =
            '"' :: (escChars k.data ++ '"' :: ':' :: ' ' ::
              (encodeValChars v ++ '}' :: rest)) := by
          rw [encodeEntriesChars.eq_def]
          simp
        rw [hinput, parseEntries.eq_def]
        simp [parseStrAux_escape,
          parseValWith_scalar (fun cs2 => parseEntries f cs2) v hv ('}' :: rest) rfl]
      | cons kv2 tl2 =>
        have hinput : encodeEntriesChars ((k, v) :: kv2 :: tl2) ++ '}' :: rest =
            '"' :: (escChars k.data ++ '"' :: ':' :: ' ' ::
              (encodeValChars v ++ ',' :: ' ' ::
                (encodeEntriesChars (kv2 :: tl2) ++ '}' :: rest))) := by
          rw [encodeEntriesChars.eq_def]
          simp
        rw [hinput, parseEntries.eq_def]
        have hrec := ih f rest (by simp) (fun p hp => hflat p (by simp [hp]))
          (by simp at hlen ⊢; omega)
        simp [parseStrAux_escape, hrec,
          parseValWith_scalar (fun cs2 => parseEntries f cs2) v hv
            (',' :: ' ' :: (encodeEntriesChars (kv2 :: tl2) ++ '}' :: rest)) rfl]

theorem encodeEntries_head (k : String) (v : CVal) (tl : List (String × CVal)) :
    ∃ t, encodeEntriesChars ((k, v) :: tl) = '"' :: t := by
  rw [encodeEntriesChars.eq_def]
  simp only [List.cons_append]
  exact ⟨_, rfl⟩

theorem entries_length_le (l : List (String × CVal)) :
    l.length ≤ (encodeEntriesChars l).length := by
  induction l with
  | nil => rw [encodeEntriesChars.eq_def]; simp
  | cons kv tl ih =>
    obtain ⟨k, v⟩ := kv
    rw [encodeEntriesChars.eq_def]
    cases tl with
    | nil => simp
    | cons kv2 tl2 =>
      simp at ih ⊢
      omega

theorem strLength_mk (cs : List Char) : (String.mk cs).length = cs.length := rfl

theorem strData_mk (cs : List Char) : (String.mk cs).data = cs := rfl

theorem parse_encodeObj (l : List (String × CVal))
    (hflat : ∀ p ∈ l, scalarB p.2 = true) :
    parse (encodeObj l) = some (CVal.obj l) := by
  cases l with
  | nil =>
    have he : encodeEntriesChars [] = [] := by rw [encodeEntriesChars.eq_def]
    unfold parse encodeObj
    rw [he]
    rfl
  | cons p tl =>
    obtain ⟨k, v⟩ := p
    obtain ⟨t, ht⟩ := encodeEntries_head k v tl
    have hv : ∀ fuel, ((k, v) :: tl).length ≤ fuel →
        parseVal fuel ('{' :: (encodeEntriesChars ((k, v) :: tl) ++ ['}'])) =
          some (CVal.obj ((k, v) :: tl), []) := by
      intro fuel hfl
      have hpe := parseEntries_encode ((k, v) :: tl) fuel [] (by simp) hflat hfl
      unfold parseVal
      rw [parseValWith.eq_def, ht, List.cons_append]
      simp
      rw [← List.cons_append, ← ht]
      rw [hpe]
    unfold parse encodeObj
    rw [strLength_mk, strData_mk, List.cons_append]
    rw [hv ('{' :: (encodeEntriesChars ((k, v) :: tl) ++ ['}'])).length
      (by have := entries_length_le ((k, v) :: tl); simp at this ⊢; omega)]

/-! ## Trace lemmas for the driver -/

theorem stepInv_name (ctx : Ctx) (s : String) (inv : Invocation)
    (h : stepInv ctx s = some inv) : inv.name = s := by
  simp only [stepInv, Option.bind_eq_some, Option.pure_def, Option.some.injEq,
    bind, Option.bind_eq_some] at h
  obtain ⟨u, hu, ps, hps, hinv⟩ := h
  rw [← hinv]

theorem stepWrites_writes (ctx : Ctx) (s : String) (e : Event)
    (h : e ∈ stepWrites ctx s) : ∃ p c, e = Event.writeFile p c := by
  unfold stepWrites at h
  split at h
  · simp at h
    subst h
    exact ⟨_, _, rfl⟩
  · simp at h

theorem invokedNames_append (t1 t2 : List Event) :
    invokedNames (t1 ++ t2) = invokedNames t1 ++ invokedNames t2 := by
  simp [invokedNames]

theorem invokedNames_writes (ctx : Ctx) (s : String) :
    invokedNames (stepWrites ctx s) = [] := by
  unfold stepWrites
  split <;> simp [invokedNames]

theorem invokedNames_invoke (i : Invocation) (t : List Event) :
    invokedNames (Event.invoke i :: t) = i.name :: invokedNames t := by
  simp [invokedNames]

theorem runSteps_ok (ctx : Ctx) (oracle : String → Bool) (active : List String) :
    ∀ l : List String,
      (∀ s ∈ l, s ∈ active → (stepInv ctx s).isSome = true ∧ oracle s = true) →
      (runSteps ctx oracle active l).2 = true ∧
        invokedNames (runSteps ctx oracle active l).1 =
          l.filter (fun s => decide (s ∈ active)) := by
  intro l
  induction l with
  | nil => intro _; simp [runSteps, invokedNames]
  | cons s rest ih =>
    intro h
    have ihr := ih (fun x hx hxa => h x (by simp [hx]) hxa)
    rw [runSteps.eq_def]
    by_cases hs : s ∈ active
    · obtain ⟨inv, hinv⟩ :=
        Option.isSome_iff_exists.mp (h s (by simp) hs).1
      have horc := (h s (by simp) hs).2
      simp only [hs, if_true, hinv, horc]
      constructor
      · exact ihr.1
      · rw [invokedNames_append, invokedNames_writes, invokedNames_invoke,
          stepInv_name ctx s inv hinv, ihr.2]
        simp [hs]
    · simp only [hs, if_false]
      refine ⟨ihr.1, ?_⟩
      rw [ihr.2]
      simp [hs]

theorem runSteps_events (ctx : Ctx) (oracle : String → Bool) (active : List String) :
    ∀ (l : List String) (e : Event), e ∈ (runSteps ctx oracle active l).1 →
      (∃ i, e = Event.invoke i) ∨ ∃ p c, e = Event.writeFile p c := by
  intro l
  induction l with
  | nil => intro e he; simp [runSteps] at he
  | cons s rest ih =>
    intro e he
    rw [runSteps.eq_def] at he
    by_cases hs : s ∈ active
    · simp only [hs, if_true] at he
      cases hinv : stepInv ctx s with
      | none =>
        rw [hinv] at he
        exact Or.inr (stepWrites_writes _ _ _ he)
      | some inv =>
        rw [hinv] at he
        by_cases ho : oracle s = true
        · simp only [ho, if_true] at he
          rcases List.mem_append.mp he with hw | hr
          · exact Or.inr (stepWrites_writes _ _ _ hw)
          · rcases List.mem_cons.mp hr with hee | ht
            · exact Or.inl ⟨inv, hee⟩
            · exact ih e ht
        · simp only [ho, if_false] at he
          rcases List.mem_append.mp he with hw | hr
          · exact Or.inr (stepWrites_writes _ _ _ hw)
          · simp at hr
            subst hr
            exact Or.inl ⟨inv, rfl⟩
    · simp only [hs, if_false] at he
      exact ih e he

theorem runSteps_sub (ctx : Ctx) (oracle : String → Bool) (active : List String) :
    ∀ l : List String, invokedNames (runSteps ctx oracle active l).1 ⊆ l := by
  intro l
  induction l with
  | nil => simp [runSteps, invokedNames]
  | cons s rest ih =>
    rw [runSteps.eq_def]
    by_cases hs : s ∈ active
    · cases hinv : stepInv ctx s with
      | none =>
        simp only [hs, if_true, hinv]
        rw [invokedNames_writes]
        intro x hx
        simp at hx
      | some inv =>
        by_cases ho : oracle s = true
        · simp only [hs, if_true, hinv, ho]
          rw [invokedNames_append, invokedNames_writes, invokedNames_invoke,
            stepInv_name ctx s inv hinv]
          intro x hx
          rcases List.mem_cons.mp hx with hx | hx
          · simp [hx]
          · exact List.mem_cons_of_mem _ (ih hx)
        · have hof : oracle s = false := by
            revert ho; cases oracle s <;> simp
          simp only [hs, if_true, hinv, hof, Bool.false_eq_true, if_false]
          rw [invokedNames_append, invokedNames_writes, invokedNames_invoke,
            stepInv_name ctx s inv hinv]
          intro x hx
          simp [invokedNames] at hx
          simp [hx]
    · simp only [hs, if_false]
      exact fun x hx => List.mem_cons_of_mem _ (ih hx)

theorem runSteps_congr (ctx : Ctx) (oracle : String → Bool) (a1 a2 : List String) :
    ∀ l : List String, (∀ s ∈ l, s ∈ a1 ↔ s ∈ a2) →
      runSteps ctx oracle a1 l = runSteps ctx oracle a2 l := by
  intro l
  induction l with
  | nil => intro _; rfl
  | cons s rest ih =>
    intro h
    have ihr := ih (fun x hx => h x (by simp [hx]))
    rw [runSteps.eq_def]
    conv_rhs => rw [runSteps.eq_def]
    simp only [ihr]
    by_cases h1 : s ∈ a1
    · have h2 : s ∈ a2 := (h s (by simp)).mp h1
      simp [h1, h2]
    · have h2 : s ∉ a2 := fun hx => h1 ((h s (by simp)).mpr hx)
      simp [h1, h2]

theorem runSteps_resolveFail (ctx : Ctx) (oracle : String → Bool)
    (active : List String) (s : String) (rest : List String)
    (hs : s ∈ active) (hinv : stepInv ctx s = none) :
    runSteps ctx oracle active (s :: rest) = (stepWrites ctx s, false) := by
  rw [runSteps.eq_def]
  simp [hs, hinv]

theorem runSteps_stepFail (ctx : Ctx) (oracle : String → Bool)
    (active : List String) (s : String) (rest : List String) (inv : Invocation)
    (hs : s ∈ active) (hinv : stepInv ctx s = some inv) (ho : oracle s = false) :
    runSteps ctx oracle active (s :: rest) =
      (stepWrites ctx s ++ [Event.invoke inv], false) := by
  rw [runSteps.eq_def]
  simp [hs, hinv, ho]

theorem runSteps_skip (ctx : Ctx) (oracle : String → Bool)
    (active : List String) (s : String) (rest : List String) (hs : s ∉ active) :
    runSteps ctx oracle active (s :: rest) = runSteps ctx oracle active rest := by
  rw [runSteps.eq_def]
  simp [hs]

theorem runSteps_stepOk (ctx : Ctx) (oracle : String → Bool)
    (active : List String) (s : String) (rest : List String) (inv : Invocation)
    (hs : s ∈ active) (hinv : stepInv ctx s = some inv) (ho : oracle s = true) :
    runSteps ctx oracle active (s :: rest) =
      (stepWrites ctx s ++ Event.invoke inv :: (runSteps ctx oracle active rest).1,
       (runSteps ctx oracle active rest).2) := by
  rw [runSteps.eq_def]
  simp [hs, hinv, ho]

theorem runSteps_prefix (ctx : Ctx) (oracle : String → Bool) (active : List String) :
    ∀ (l1 l2 : List String) (e1 : List Event),
      runSteps ctx oracle active l1 = (e1, true) →
      runSteps ctx oracle active (l1 ++ l2) =
        (e1 ++ (runSteps ctx oracle active l2).1,
         (runSteps ctx oracle active l2).2) := by
  intro l1
  induction l1 with
  | nil =>
    intro l2 e1 h
    simp [runSteps] at h
    subst h
    simp
  | cons s rest ih =>
    intro l2 e1 h
    rw [List.cons_append]
    by_cases hs : s ∈ active
    · cases hinv : stepInv ctx s with
      | none =>
        rw [runSteps_resolveFail ctx oracle active s rest hs hinv] at h
        simp at h
      | some inv =>
        cases ho : oracle s with
        | false =>
          rw [runSteps_stepFail ctx oracle active s rest inv hs hinv ho] at h
          simp at h
        | true =>
          rw [runSteps_stepOk ctx oracle active s rest inv hs hinv ho] at h
          rw [runSteps_stepOk ctx oracle active s (rest ++ l2) inv hs hinv ho]
          have h1 := congrArg Prod.fst h
          have h2 := congrArg Prod.snd h
          simp at h1 h2
          rw [ih l2 (runSteps ctx oracle active rest).1
            (by rw [Prod.ext_iff]; exact ⟨rfl, h2⟩)]
          rw [← h1]
          simp
    · rw [runSteps_skip ctx oracle active s rest hs] at h
      rw [runSteps_skip ctx oracle active s (rest ++ l2) hs]
      exact ih l2 e1 h

theorem go_eq (cwd origCwd tmpDir : String) (cfg : Config) (oracle : String → Bool)
    (pn en : CVal) (sel : String)
    (h1 : lookupPath cfg ["main", "project_name"] = some pn)
    (h2 : lookupPath cfg ["main", "experiment_name"] = some en)
    (h3 : lookupPath cfg ["main", "steps"] = some (CVal.str sel)) :
    go cwd origCwd tmpDir cfg oracle =
      ([Event.setEnv "WANDB_PROJECT" pn, Event.setEnv "WANDB_RUN_GROUP" en,
        Event.createTmp tmpDir] ++
        (runSteps (Ctx.mk cwd origCwd cfg) oracle (activeOf sel) stepOrder).1 ++
        [Event.removeTmp tmpDir],
       (runSteps (Ctx.mk cwd origCwd cfg) oracle (activeOf sel) stepOrder).2) := by
  unfold go
  rw [h1, h2, h3]

theorem invokedNames_go (cwd origCwd tmpDir : String) (cfg : Config)
    (oracle : String → Bool) (pn en : CVal) (sel : String)
    (h1 : lookupPath cfg ["main", "project_name"] = some pn)
    (h2 : lookupPath cfg ["main", "experiment_name"] = some en)
    (h3 : lookupPath cfg ["main", "steps"] = some (CVal.str sel)) :
    invokedNames (go cwd origCwd tmpDir cfg oracle).1 =
      invokedNames
        (runSteps (Ctx.mk cwd origCwd cfg) oracle (activeOf sel) stepOrder).1 := by
  rw [go_eq cwd origCwd tmpDir cfg oracle pn en sel h1 h2 h3]
  have hA : invokedNames [Event.setEnv "WANDB_PROJECT" pn,
      Event.setEnv "WANDB_RUN_GROUP" en, Event.createTmp tmpDir] = [] := rfl
  have hB : invokedNames [Event.removeTmp tmpDir] = [] := rfl
  rw [invokedNames_append, invokedNames_append, hA, hB]
  simp

/-! ## Claim theorems -/

/-- C1: for every configuration whose step-selection string is the sentinel
"all", the invoked steps are exactly the fixed registry [download,
basic_cleaning, data_check, data_split, train_random_forest] — the full
registry with test_regression_model excluded — in registry order; the
hypotheses state that every registry step resolves its parameters and its
external run succeeds, so no abort cuts the run short. -/
theorem c1_all_selects_registry (cwd origCwd tmpDir : String) (cfg : Config)
    (oracle : String → Bool) (pn en : CVal)
    (h1 : lookupPath cfg ["main", "project_name"] = some pn)
    (h2 : lookupPath cfg ["main", "experiment_name"] = some en)
    (h3 : lookupPath cfg ["main", "steps"] = some (CVal.str "all"))
    (h4 : ∀ s ∈ _steps, (stepInv (Ctx.mk cwd origCwd cfg) s).isSome = true ∧
      oracle s = true) :
    invokedNames (go cwd origCwd tmpDir cfg oracle).1 = _steps := by
  rw [invokedNames_go cwd origCwd tmpDir cfg oracle pn en "all" h1 h2 h3]
  have hao : activeOf "all" = _steps := by rw [activeOf, if_pos rfl]
  rw [hao]
  rw [(runSteps_ok (Ctx.mk cwd origCwd cfg) oracle _steps stepOrder
    (fun s _ hs2 => h4 s hs2)).2]
  decide

theorem c1_witness :
    invokedNames (go "/work" "/repo" "/tmp/t0" (cfgWith "all") allOk).1 = _steps :=
  c1_all_selects_registry "/work" "/repo" "/tmp/t0" (cfgWith "all") allOk
    (CVal.str "nyc_airbnb") (CVal.str "development") rfl rfl rfl (by decide)

/-- C2: for every configuration whose step-selection string is a
comma-separated list (not the sentinel), each of the six checked steps is
invoked exactly when its name is a member of the split list, and the
invocation order is the registry check order, independent of the order
the caller listed the names; hypotheses as in C1 for the selected steps. -/
theorem c2_membership_registry_order (cwd origCwd tmpDir : String) (cfg : Config)
    (oracle : String → Bool) (pn en : CVal) (sel : String)
    (h1 : lookupPath cfg ["main", "project_name"] = some pn)
    (h2 : lookupPath cfg ["main", "experiment_name"] = some en)
    (h3 : lookupPath cfg ["main", "steps"] = some (CVal.str sel))
    (hsel : sel ≠ "all")
    (h4 : ∀ s ∈ stepOrder, s ∈ splitComma sel →
      (stepInv (Ctx.mk cwd origCwd cfg) s).isSome = true ∧ oracle s = true) :
    invokedNames (go cwd origCwd tmpDir cfg oracle).1 =
      stepOrder.filter (fun s => decide (s ∈ splitComma sel)) := by
  rw [invokedNames_go cwd origCwd tmpDir cfg oracle pn en sel h1 h2 h3]
  rw [activeOf, if_neg hsel]
  exact (runSteps_ok (Ctx.mk cwd origCwd cfg) oracle (splitComma sel) stepOrder h4).2

theorem c2_witness :
    invokedNames (go "/work" "/repo" "/tmp/t0" (cfgWith "download,data_check") allOk).1 =
      stepOrder.filter (fun s => decide (s ∈ splitComma "download,data_check")) :=
  c2_membership_registry_order "/work" "/repo" "/tmp/t0"
    (cfgWith "download,data_check") allOk (CVal.str "nyc_airbnb")
    (CVal.str "development") "download,data_check" rfl rfl rfl (by decide) (by decide)

/-- C3: a selection list that names test_regression_model runs it: the
membership tests have no special-case exclusion of that step, only the
sentinel path omits it (hypotheses: the selected steps resolve and
succeed, so the run reaches it). -/
theorem c3_excluded_step_runs_when_named (cwd origCwd tmpDir : String)
    (cfg : Config) (oracle : String → Bool) (pn en : CVal) (sel : String)
    (h1 : lookupPath cfg ["main", "project_name"] = some pn)
    (h2 : lookupPath cfg ["main", "experiment_name"] = some en)
    (h3 : lookupPath cfg ["main", "steps"] = some (CVal.str sel))
    (hmem : "test_regression_model" ∈ splitComma sel)
    (h4 : ∀ s ∈ stepOrder, s ∈ splitComma sel →
      (stepInv (Ctx.mk cwd origCwd cfg) s).isSome = true ∧ oracle s = true) :
    "test_regression_model" ∈ invokedNames (go cwd origCwd tmpDir cfg oracle).1 := by
  have hsel : sel ≠ "all" := by
    intro he
    subst he
    exact absurd hmem (by decide)
  rw [invokedNames_go cwd origCwd tmpDir cfg oracle pn en sel h1 h2 h3]
  rw [activeOf, if_neg hsel]
  rw [(runSteps_ok (Ctx.mk cwd origCwd cfg) oracle (splitComma sel) stepOrder h4).2]
  rw [List.mem_filter]
  exact ⟨by decide, by simp [hmem]⟩

theorem c3_witness :
    "test_regression_model" ∈
      invokedNames (go "/work" "/repo" "/tmp/t0"
        (cfgWith "test_regression_model") allOk).1 :=
  c3_excluded_step_runs_when_named "/work" "/repo" "/tmp/t0"
    (cfgWith "test_regression_model") allOk (CVal.str "nyc_airbnb")
    (CVal.str "development") "test_regression_model" rfl rfl rfl (by decide) (by decide)

/-- Predicate that path `p` lies inside directory `dir`: `dir` is a character-wise
prefix of `p`. -/
def underDir (dir p : String) : Bool := dir.data.isPrefixOf p.data

/-- C4 counterexample: in a run with current working directory `/work` and
temporary directory `/tmp/t0`, the only file the driver writes is
`/work/rf_config.json` — resolved by `os.path.abspath` against the process
working directory — which does not lie inside the scoped temporary
directory, refuting the claim that the hyperparameter file is serialized
to a file inside that directory. -/
theorem c4_counterexample :
    writePaths (go "/work" "/repo" "/tmp/t0" (cfgWith "all") allOk).1 =
      ["/work/rf_config.json"] ∧
    underDir "/tmp/t0" "/work/rf_config.json" = false := by
  constructor
  · decide
  · decide

/-- C4 (amended): when the train_random_forest step is active, the driver
serializes modeling.random_forest to `rf_config.json` resolved against the
process current working directory — outside the scoped temporary
directory — and passes that file path (not the values themselves) as the
`rf_config` parameter of the training step invocation. -/
theorem c4_rf_config_path (ctx : Ctx) (rf : List (String × CVal)) (inv : Invocation)
    (h1 : lookupPath ctx.cfg ["modeling", "random_forest"] = some (CVal.obj rf))
    (h2 : stepInv ctx "train_random_forest" = some inv) :
    stepWrites ctx "train_random_forest" =
      [Event.writeFile (pathJoin ctx.cwd "rf_config.json") (encodeObj rf)] ∧
    lookupKV inv.parameters "rf_config" =
      some (CVal.str (pathJoin ctx.cwd "rf_config.json")) := by
  constructor
  · simp [stepWrites, h1, rfConfigPath]
  · simp only [stepInv, bind, Option.bind_eq_some, Option.pure_def,
      Option.some.injEq] at h2
    obtain ⟨u, hu, ps, hps, hinv⟩ := h2
    simp only [paramsOf, h1, bind, Option.bind_eq_some, Option.pure_def,
      Option.some.injEq] at hps
    obtain ⟨v1, hv1, v2, hv2, v3, hv3, v4, hv4, v5, hv5, v6, hv6, hps⟩ := hps
    rw [← hinv, ← hps]
    simp [lookupKV, rfConfigPath]

def ctxC : Ctx := Ctx.mk "/work" "/repo" (cfgWith "all")

def rfC : List (String × CVal) :=
  [("n_estimators", CVal.int 100), ("max_depth", CVal.int 10)]

def invTrainC : Invocation :=
  Invocation.mk "train_random_forest"
    (pathJoin (pathJoin "/repo" "src") "train_random_forest") "main" none
    [("trainval_artifact", CVal.str "trainval_data.csv:latest"),
     ("val_size", CVal.str "0.2"),
     ("random_seed", CVal.int 42),
     ("stratify_by", CVal.str "neighbourhood_group"),
     ("rf_config", CVal.str (pathJoin "/work" "rf_config.json")),
     ("max_tfidf_features", CVal.int 5),
     ("output_artifact", CVal.str "random_forest_export")]

theorem c4_rf_config_path_witness :
    stepWrites ctxC "train_random_forest" =
      [Event.writeFile (pathJoin "/work" "rf_config.json") (encodeObj rfC)] ∧
    lookupKV invTrainC.parameters "rf_config" =
      some (CVal.str (pathJoin "/work" "rf_config.json")) :=
  c4_rf_config_path ctxC rfC invTrainC rfl rfl

/-- C5: for every configuration in which train_random_forest is active,
the content written to the hyperparameter file is the serialization of the
modeling.random_forest sub-object, and parsing it back yields a key-value
mapping equal, value for value and independently of key order, to that
sub-object (stated for the flat scalar-valued blocks the spec describes). -/
theorem c5_serialized_roundtrip (ctx : Ctx) (rf : List (String × CVal))
    (h1 : lookupPath ctx.cfg ["modeling", "random_forest"] = some (CVal.obj rf))
    (hflat : ∀ p ∈ rf, scalarB p.2 = true) :
    stepWrites ctx "train_random_forest" =
      [Event.writeFile (rfConfigPath ctx) (encodeObj rf)] ∧
    parse (encodeObj rf) = some (CVal.obj rf) ∧
    (∀ k, (match parse (encodeObj rf) with
           | some (CVal.obj l) => lookupKV l k
           | _ => none) = lookupKV rf k) := by
  refine ⟨by simp [stepWrites, h1], parse_encodeObj rf hflat, ?_⟩
  intro k
  rw [parse_encodeObj rf hflat]

theorem c5_witness :
    stepWrites ctxC "train_random_forest" =
      [Event.writeFile (rfConfigPath ctxC) (encodeObj rfC)] ∧
    parse (encodeObj rfC) = some (CVal.obj rfC) ∧
    (∀ k, (match parse (encodeObj rfC) with
           | some (CVal.obj l) => lookupKV l k
           | _ => none) = lookupKV rfC k) :=
  c5_serialized_roundtrip ctxC rfC rfl (by decide)

/-- C6: under any oracle — the run succeeding or aborting on a failed
step — the temporary directory is created before any step event, every
event between creation and removal is a step invocation or a file write,
and the removal is the last event of the run. -/
theorem c6_tmpdir_scoped (cwd origCwd tmpDir : String) (cfg : Config)
    (oracle : String → Bool) (pn en : CVal) (sel : String)
    (h1 : lookupPath cfg ["main", "project_name"] = some pn)
    (h2 : lookupPath cfg ["main", "experiment_name"] = some en)
    (h3 : lookupPath cfg ["main", "steps"] = some (CVal.str sel)) :
    ∃ body, (go cwd origCwd tmpDir cfg oracle).1 =
      [Event.setEnv "WANDB_PROJECT" pn, Event.setEnv "WANDB_RUN_GROUP" en,
       Event.createTmp tmpDir] ++ body ++ [Event.removeTmp tmpDir] ∧
      ∀ e ∈ body, (∃ i, e = Event.invoke i) ∨ ∃ p c, e = Event.writeFile p c :=
  ⟨(runSteps (Ctx.mk cwd origCwd cfg) oracle (activeOf sel) stepOrder).1,
    by rw [go_eq cwd origCwd tmpDir cfg oracle pn en sel h1 h2 h3],
    runSteps_events (Ctx.mk cwd origCwd cfg) oracle (activeOf sel) stepOrder⟩

theorem c6_witness :
    ∃ body, (go "/work" "/repo" "/tmp/t0" (cfgWith "all") allOk).1 =
      [Event.setEnv "WANDB_PROJECT" (CVal.str "nyc_airbnb"),
       Event.setEnv "WANDB_RUN_GROUP" (CVal.str "development"),
       Event.createTmp "/tmp/t0"] ++ body ++ [Event.removeTmp "/tmp/t0"] ∧
      ∀ e ∈ body, (∃ i, e = Event.invoke i) ∨ ∃ p c, e = Event.writeFile p c :=
  c6_tmpdir_scoped "/work" "/repo" "/tmp/t0" (cfgWith "all") allOk
    (CVal.str "nyc_airbnb") (CVal.str "development") "all" rfl rfl rfl

/-- C7: the two tracking environment variables are the first two events of
every run, set exactly once — project name then run group — before any
step is invoked, and no later event of the run sets an environment
variable again. -/
theorem c7_env_set_once (cwd origCwd tmpDir : String) (cfg : Config)
    (oracle : String → Bool) (pn en : CVal)
    (h1 : lookupPath cfg ["main", "project_name"] = some pn)
    (h2 : lookupPath cfg ["main", "experiment_name"] = some en) :
    ∃ rest, (go cwd origCwd tmpDir cfg oracle).1 =
      Event.setEnv "WANDB_PROJECT" pn :: Event.setEnv "WANDB_RUN_GROUP" en :: rest ∧
      ∀ e ∈ rest, ∀ k v, e ≠ Event.setEnv k v := by
  unfold go
  rw [h1, h2]
  cases h3 : lookupPath cfg ["main", "steps"] with
  | none => exact ⟨[], rfl, by simp⟩
  | some v =>
    cases v with
    | str sel =>
      refine ⟨Event.createTmp tmpDir ::
        ((runSteps (Ctx.mk cwd origCwd cfg) oracle (activeOf sel) stepOrder).1 ++
          [Event.removeTmp tmpDir]), by simp, ?_⟩
      intro e he k vv
      rcases List.mem_cons.mp he with he | he
      · subst he; simp
      · rcases List.mem_append.mp he with he | he
        · rcases runSteps_events (Ctx.mk cwd origCwd cfg) oracle (activeOf sel)
            stepOrder e he with ⟨i, hi⟩ | ⟨p, c, hpc⟩
          · subst hi; simp
          · subst hpc; simp
        · simp at he
          subst he
          simp
    | int n => exact ⟨[], rfl, by simp⟩
    | bool b => exact ⟨[], rfl, by simp⟩
    | obj l => exact ⟨[], rfl, by simp⟩

theorem c7_witness :
    ∃ rest, (go "/work" "/repo" "/tmp/t0" (cfgWith "all") allOk).1 =
      Event.setEnv "WANDB_PROJECT" (CVal.str "nyc_airbnb") ::
        Event.setEnv "WANDB_RUN_GROUP" (CVal.str "development") :: rest ∧
      ∀ e ∈ rest, ∀ k v, e ≠ Event.setEnv k v :=
  c7_env_set_once "/work" "/repo" "/tmp/t0" (cfgWith "all") allOk
    (CVal.str "nyc_airbnb") (CVal.str "development") rfl rfl

/-- C8: the driver recovers from no failure: a step whose parameter
resolution hits a missing key aborts the run right there (events of
already-run steps stay in the trace and nothing later runs), a step whose
external run fails aborts the remaining pipeline after its invocation,
successfully completed prefixes are preserved unchanged in front of
whatever follows, and the success flag of the whole run is exactly the
flag of the step sequence. -/
theorem c8_fail_fast_aborts :
    (∀ (ctx : Ctx) (oracle : String → Bool) (active : List String)
       (s : String) (rest : List String), s ∈ active → stepInv ctx s = none →
       runSteps ctx oracle active (s :: rest) = (stepWrites ctx s, false)) ∧
    (∀ (ctx : Ctx) (oracle : String → Bool) (active : List String)
       (s : String) (rest : List String) (inv : Invocation),
       s ∈ active → stepInv ctx s = some inv → oracle s = false →
       runSteps ctx oracle active (s :: rest) =
         (stepWrites ctx s ++ [Event.invoke inv], false)) ∧
    (∀ (ctx : Ctx) (oracle : String → Bool) (active : List String)
       (l1 l2 : List String) (e1 : List Event),
       runSteps ctx oracle active l1 = (e1, true) →
       runSteps ctx oracle active (l1 ++ l2) =
         (e1 ++ (runSteps ctx oracle active l2).1,
          (runSteps ctx oracle active l2).2)) ∧
    (∀ (cwd origCwd tmpDir : String) (cfg : Config) (oracle : String → Bool)
       (pn en : CVal) (sel : String),
       lookupPath cfg ["main", "project_name"] = some pn →
       lookupPath cfg ["main", "experiment_name"] = some en →
       lookupPath cfg ["main", "steps"] = some (CVal.str sel) →
       (go cwd origCwd tmpDir cfg oracle).2 =
         (runSteps (Ctx.mk cwd origCwd cfg) oracle (activeOf sel) stepOrder).2) :=
  ⟨runSteps_resolveFail, runSteps_stepFail, runSteps_prefix,
   fun cwd origCwd tmpDir cfg oracle pn en sel h1 h2 h3 => by
     rw [go_eq cwd origCwd tmpDir cfg oracle pn en sel h1 h2 h3]⟩

theorem c8_witness :
    runSteps (Ctx.mk "/work" "/repo" []) allOk ["download"]
      ["download", "basic_cleaning"] =
      (stepWrites (Ctx.mk "/work" "/repo" []) "download", false) :=
  c8_fail_fast_aborts.1 (Ctx.mk "/work" "/repo" []) allOk ["download"]
    "download" ["basic_cleaning"] (by decide) rfl

/-- C9: the selection string is split on the literal comma with no
whitespace stripping and an exact, case-sensitive membership test: the
selection "download, data_check" splits into ["download", " data_check"],
the whitespace-carrying token matches no registry step so data_check is
silently not invoked, and "All" is not the sentinel — it is treated as the
one-element list ["All"] and selects nothing. -/
theorem c9_split_literal_case_sensitive :
    splitComma "download, data_check" = ["download", " data_check"] ∧
    invokedNames (go "/work" "/repo" "/tmp/t0"
      (cfgWith "download, data_check") allOk).1 = ["download"] ∧
    invokedNames (go "/work" "/repo" "/tmp/t0" (cfgWith "All") allOk).1 = [] := by
  refine ⟨by decide, by decide, by decide⟩

theorem invoked_subset_registry (cwd origCwd tmpDir : String) (cfg : Config)
    (oracle : String → Bool) :
    invokedNames (go cwd origCwd tmpDir cfg oracle).1 ⊆ stepOrder := by
  cases hx1 : lookupPath cfg ["main", "project_name"] with
  | none =>
    unfold go
    rw [hx1]
    intro x hx
    simp [invokedNames] at hx
  | some pn =>
    cases hx2 : lookupPath cfg ["main", "experiment_name"] with
    | none =>
      unfold go
      rw [hx1, hx2]
      intro x hx
      simp [invokedNames] at hx
    | some en =>
      cases hx3 : lookupPath cfg ["main", "steps"] with
      | none =>
        unfold go
        rw [hx1, hx2, hx3]
        intro x hx
        simp [invokedNames] at hx
      | some v =>
        cases v with
        | str sel =>
          rw [invokedNames_go cwd origCwd tmpDir cfg oracle pn en sel hx1 hx2 hx3]
          exact runSteps_sub (Ctx.mk cwd origCwd cfg) oracle (activeOf sel) stepOrder
        | int n =>
          unfold go
          rw [hx1, hx2, hx3]
          intro x hx
          simp [invokedNames] at hx
        | bool b =>
          unfold go
          rw [hx1, hx2, hx3]
          intro x hx
          simp [invokedNames] at hx
        | obj l =>
          unfold go
          rw [hx1, hx2, hx3]
          intro x hx
          simp [invokedNames] at hx

/-- C10: selection tokens that match no registry step — including the
empty token an empty selection produces — are silently ignored: every
invoked step name belongs to the fixed check order (registry plus
test_regression_model), and two selections agreeing on the registry names
they contain produce identical runs. -/
theorem c10_unknown_names_ignored :
    (∀ (cwd origCwd tmpDir : String) (cfg : Config) (oracle : String → Bool),
      invokedNames (go cwd origCwd tmpDir cfg oracle).1 ⊆ stepOrder) ∧
    (∀ (ctx : Ctx) (oracle : String → Bool) (a1 a2 : List String),
      (∀ s ∈ stepOrder, s ∈ a1 ↔ s ∈ a2) →
      runSteps ctx oracle a1 stepOrder = runSteps ctx oracle a2 stepOrder) :=
  ⟨invoked_subset_registry,
   fun ctx oracle a1 a2 h => runSteps_congr ctx oracle a1 a2 stepOrder h⟩

theorem c10_witness :
    runSteps ctxC allOk [""] stepOrder = runSteps ctxC allOk [] stepOrder :=
  c10_unknown_names_ignored.2 ctxC allOk [""] [] (by decide)
